import Mathlib

/-!
Shallow embedding of the base-client-js vault core:
`src/manager/ProfileManager.ts` and `src/manager/AccountManager.ts`.

JavaScript `Map<string, string>` values are modelled as association lists in
insertion order with pairwise-distinct keys (`Vault`); `Map.set` is `assocSet`,
`Map.get` is `assocGet`, `Map.has` is `assocHas`.  A settled-or-not JavaScript
`Promise` outcome is modelled by `POutcome`: `resolved`/`rejected` for settled
promises and `pending` for a promise that never settles.  External
collaborators (the symmetric cipher `CryptoUtils.encryptAes256/decryptAes256`,
the asymmetric `MessageDecrypt.decryptMessage`, the key-pair helper and the
remote repositories) are parameters of the embedded operations; a throwing
call is a function returning `Except String`.
-/

/-- A JavaScript `Map<string, string>`: association list in insertion order. -/
abbrev Vault := List (String × String)

/-- `Map.get`: value at the first occurrence of key `k`. -/
def assocGet {α : Type} : List (String × α) → String → Option α
  | [], _ => none
  | (k', v) :: rest, k => if k' = k then some v else assocGet rest k

/-- `Map.has`. -/
def assocHas {α : Type} (m : List (String × α)) (k : String) : Bool :=
  (assocGet m k).isSome

/-- `Map.set`: replace in place at an existing key, else append. -/
def assocSet {α : Type} : List (String × α) → String → α → List (String × α)
  | [], k, v => [(k, v)]
  | (k', v') :: rest, k, v =>
    if k' = k then (k, v) :: rest else (k', v') :: assocSet rest k v

/-- Outcome of a JavaScript promise: settled with a value, settled with an
error, or never settled at all. -/
inductive POutcome (α : Type) where
  | pending : POutcome α
  | resolved (value : α) : POutcome α
  | rejected (error : String) : POutcome α
deriving DecidableEq

/- ### assoc-list lemmas -/

theorem assocGet_assocSet_self {α : Type} (m : List (String × α)) (k : String) (v : α) :
    assocGet (assocSet m k v) k = some v := by
  induction m with
  | nil => simp [assocSet, assocGet]
  | cons kv rest ih =>
    obtain ⟨k', v'⟩ := kv
    by_cases h : k' = k
    · simp [assocSet, h, assocGet]
    · simp [assocSet, h, assocGet, ih]

theorem assocGet_assocSet_ne {α : Type} (m : List (String × α)) (k j : String) (v : α)
    (h : k ≠ j) : assocGet (assocSet m k v) j = assocGet m j := by
  induction m with
  | nil => simp [assocSet, assocGet, h]
  | cons kv rest ih =>
    obtain ⟨k', v'⟩ := kv
    by_cases hk : k' = k
    · subst hk
      simp [assocSet, assocGet, h]
    · simp [assocSet, hk, assocGet, ih]

theorem assocGet_eq_none_of_not_mem {α : Type} (m : List (String × α)) (k : String)
    (h : k ∉ m.map Prod.fst) : assocGet m k = none := by
  induction m with
  | nil => rfl
  | cons kv rest ih =>
    obtain ⟨k', v'⟩ := kv
    simp only [List.map_cons, List.mem_cons] at h
    push_neg at h
    simp [assocGet, Ne.symm h.1, ih h.2]

theorem assocSet_eq_append {α : Type} (m : List (String × α)) (k : String) (v : α)
    (h : assocGet m k = none) : assocSet m k v = m ++ [(k, v)] := by
  induction m with
  | nil => rfl
  | cons kv rest ih =>
    obtain ⟨k', v'⟩ := kv
    by_cases hk : k' = k
    · simp [assocGet, hk] at h
    · simp only [assocGet, hk, if_false] at h
      simp [assocSet, hk, ih h]

theorem assocGet_append_of_none {α : Type} (m m' : List (String × α)) (k : String)
    (h : assocGet m k = none) : assocGet (m ++ m') k = assocGet m' k := by
  induction m with
  | nil => rfl
  | cons kv rest ih =>
    obtain ⟨k', v'⟩ := kv
    by_cases hk : k' = k
    · simp [assocGet, hk] at h
    · simp only [assocGet, hk, if_false] at h
      simp only [List.cons_append, assocGet, hk, if_false]
      exact ih h

/- ### lowercase normalization -/

theorem char_toLower_of_not_upper (c : Char) (h : ¬(65 ≤ c.toNat ∧ c.toNat ≤ 90)) :
    Char.toLower c = c := by
  simp only [Char.toLower]
  rw [if_neg]
  exact fun hc => h ⟨hc.1, hc.2⟩

theorem char_toLower_toNat_of_upper (c : Char) (h : 65 ≤ c.toNat ∧ c.toNat ≤ 90) :
    (Char.toLower c).toNat = c.toNat + 32 := by
  have hvalid : (c.toNat + 32).isValidChar := Or.inl (by omega)
  simp only [Char.toLower]
  rw [if_pos ⟨h.1, h.2⟩, Char.ofNat, dif_pos hvalid]
  simp [Char.ofNatAux, Char.toNat, UInt32.toNat, BitVec.toNat_ofNatLt]

theorem char_toLower_toLower (c : Char) : c.toLower.toLower = c.toLower := by
  by_cases h : 65 ≤ c.toNat ∧ c.toNat ≤ 90
  · have hlow := char_toLower_toNat_of_upper c h
    exact char_toLower_of_not_upper _ (by omega)
  · rw [char_toLower_of_not_upper c h]
    exact char_toLower_of_not_upper c h

theorem string_toLower_toLower (s : String) : s.toLower.toLower = s.toLower := by
  simp only [String.toLower, String.map_eq, List.map_map]
  congr 1
  apply List.map_congr_left
  intro c _
  exact char_toLower_toLower c

/- ### ProfileManager (src/manager/ProfileManager.ts) -/

/-- `ProfileManager.prepareData`, body of the `data.forEach` loop unrolled by
structural recursion.  For each `(key, value)` pair it derives
`pass = encrypt.generatePasswordForFiled(key)` (the key exactly as given),
applies `CryptoUtils.encryptAes256` or `CryptoUtils.decryptAes256`, and does
`result.set(key.toLowerCase(), changedValue)`.  The first exception aborts the
loop and rejects the promise returned by `prepareData`. -/
def prepareDataAux (generatePasswordForFiled : String → Except String String)
    (encryptAes256 decryptAes256 : String → String → Except String String)
    (encrypt : Bool) : List (String × String) → Vault → Except String Vault
  | [], result => Except.ok result
  | (key, value) :: rest, result =>
    match generatePasswordForFiled key with
    | Except.error e => Except.error e
    | Except.ok pass =>
      match (if encrypt then encryptAes256 value pass else decryptAes256 value pass) with
      | Except.error e => Except.error e
      | Except.ok changedValue =>
        prepareDataAux generatePasswordForFiled encryptAes256 decryptAes256 encrypt rest
          (assocSet result key.toLower changedValue)

/-- `ProfileManager.prepareData(data, encrypt)`: starts from an empty `result`
map. -/
def prepareData (generatePasswordForFiled : String → Except String String)
    (encryptAes256 decryptAes256 : String → String → Except String String)
    (data : Vault) (encrypt : Bool) : Except String Vault :=
  prepareDataAux generatePasswordForFiled encryptAes256 decryptAes256 encrypt data []

/-- `ProfileManager.getRawData(anyPublicKey)`: pass-through to
`clientDataRepository.getData`. -/
def getRawData (repoGetData : String → POutcome Vault) (anyPublicKey : String) :
    POutcome Vault :=
  repoGetData anyPublicKey

/-- `ProfileManager.getData()`: `getRawData(account.publicKey).then(data =>
prepareData(data, false))`.  A repository rejection propagates through the
`then` chain; a `prepareData` rejection rejects the result. -/
def getData (generatePasswordForFiled : String → Except String String)
    (encryptAes256 decryptAes256 : String → String → Except String String)
    (repoGetData : String → POutcome Vault) (accountPublicKey : String) :
    POutcome Vault :=
  match getRawData repoGetData accountPublicKey with
  | POutcome.pending => POutcome.pending
  | POutcome.rejected e => POutcome.rejected e
  | POutcome.resolved data =>
    match prepareData generatePasswordForFiled encryptAes256 decryptAes256 data false with
    | Except.error e => POutcome.rejected e
    | Except.ok result => POutcome.resolved result

/-- `ProfileManager.updateData(data)`: `prepareData(data, true).then(encrypted
=> clientDataRepository.updateData(account.publicKey, encrypted))`.  If
`prepareData` rejects, the repository is never called and the rejection
propagates. -/
def updateData (generatePasswordForFiled : String → Except String String)
    (encryptAes256 decryptAes256 : String → String → Except String String)
    (repoUpdateData : String → Vault → POutcome Vault) (accountPublicKey : String)
    (data : Vault) : POutcome Vault :=
  match prepareData generatePasswordForFiled encryptAes256 decryptAes256 data true with
  | Except.error e => POutcome.rejected e
  | Except.ok encrypted => repoUpdateData accountPublicKey encrypted

/-- Body of the `arrayResponse.forEach((value, key) => ...)` loop in
`ProfileManager.getAuthorizedData`: if the raw vault has `key`, try to decrypt
its ciphertext with the disclosed password `value`; on success
`result.set(key, ...)`, on a thrown decryption error only log and keep
`result` unchanged. -/
def authStep (decryptAes256 : String → String → Except String String)
    (recipientData : Vault) (result : Vault) (key value : String) : Vault :=
  if assocHas recipientData key then
    match assocGet recipientData key with
    | some data =>
      match decryptAes256 data value with
      | Except.ok plain => assocSet result key plain
      | Except.error _ => result
    | none => result
  else result

/-- `ProfileManager.getAuthorizedData(recipientPk, encryptedData)`.  The body
runs inside `new Promise(resolve => ...)`: a throw from
`decrypt.decryptMessage` or `JSON.parse`/`JsonUtils.jsonToMap` (modelled
together as `jsonToMap`) rejects the promise before the repository is
consulted.  The inner `this.getRawData(recipientPk).then(...)` has no
rejection handler, so when the repository call rejects, `resolve` is never
invoked and the returned promise never settles (`POutcome.pending`). -/
def getAuthorizedData (decryptMessage : String → String → Except String String)
    (jsonToMap : String → Except String Vault)
    (repoGetData : String → POutcome Vault)
    (decryptAes256 : String → String → Except String String)
    (recipientPk : String) (encryptedData : String) : POutcome Vault :=
  match decryptMessage recipientPk encryptedData with
  | Except.error e => POutcome.rejected e
  | Except.ok strDecrypt =>
    match jsonToMap strDecrypt with
    | Except.error e => POutcome.rejected e
    | Except.ok arrayResponse =>
      match getRawData repoGetData recipientPk with
      | POutcome.resolved recipientData =>
        POutcome.resolved (arrayResponse.foldl
          (fun result kv => authStep decryptAes256 recipientData result kv.1 kv.2) [])
      | POutcome.pending => POutcome.pending
      | POutcome.rejected _ => POutcome.pending

/- ### AccountManager (src/manager/AccountManager.ts) -/

/-- `Account` model: `new Account(publicKey)` leaves `message` and `sig`
empty. -/
structure Account where
  publicKey : String
  message : String
  sig : String
deriving DecidableEq

/-- `KeyPair` as produced by `keyPairCreator.createKeyPair`. -/
structure KeyPair where
  publicKey : String
  privateKey : String
deriving DecidableEq

/-- The `BehaviorSubject<Account>` held by `AccountManager`: its current value
plus the log of values pushed with `next`. -/
structure SubjectState where
  current : Account
  emitted : List Account
deriving DecidableEq

/-- `BehaviorSubject.next(a)`: replace the current value and notify
subscribers once. -/
def subjectNext (st : SubjectState) (a : Account) : SubjectState :=
  { current := a, emitted := st.emitted ++ [a] }

/-- `AccountManager.generateAccount(keyPair)`: `new Account(keyPair.publicKey)`. -/
def generateAccount (kp : KeyPair) : Account :=
  { publicKey := kp.publicKey, message := "", sig := "" }

/-- `AccountManager.onGetAccount(account, message)`: sign the message, attach
`message`/`sig` to the account, publish it on the behavior subject, and
resolve with the same account.  On a signing failure nothing is published. -/
def onGetAccount (signMessage : String → Except String String)
    (st : SubjectState) (account : Account) (message : String) :
    Except String Account × SubjectState :=
  match signMessage message with
  | Except.error e => (Except.error e, st)
  | Except.ok s =>
    let acc : Account := { account with message := message, sig := s }
    (Except.ok acc, subjectNext st acc)

/-- `AccountManager.registration(mnemonicPhrase, message)`. -/
def registration (createKeyPair : String → Except String KeyPair)
    (repoRegistration : Account → Except String Account)
    (signMessage : String → Except String String)
    (st : SubjectState) (mnemonicPhrase message : String) :
    Except String Account × SubjectState :=
  match createKeyPair mnemonicPhrase with
  | Except.error e => (Except.error e, st)
  | Except.ok kp =>
    match repoRegistration (generateAccount kp) with
    | Except.error e => (Except.error e, st)
    | Except.ok account => onGetAccount signMessage st account message

/-- `AccountManager.checkAccount(mnemonicPhrase, message)`: same derivation,
but against `accountRepository.checkAccount` (via the private `getAccount`). -/
def checkAccount (createKeyPair : String → Except String KeyPair)
    (repoCheckAccount : Account → Except String Account)
    (signMessage : String → Except String String)
    (st : SubjectState) (mnemonicPhrase message : String) :
    Except String Account × SubjectState :=
  match createKeyPair mnemonicPhrase with
  | Except.error e => (Except.error e, st)
  | Except.ok kp =>
    match repoCheckAccount (generateAccount kp) with
    | Except.error e => (Except.error e, st)
    | Except.ok account => onGetAccount signMessage st account message

/-- `AccountManager.unsubscribe(mnemonicPhrase)`: derives the account and
calls `accountRepository.unsubscribe`; the behavior subject is never
touched. -/
def unsubscribe (createKeyPair : String → Except String KeyPair)
    (repoUnsubscribe : Account → Except String Account)
    (st : SubjectState) (mnemonicPhrase : String) :
    Except String Account × SubjectState :=
  match createKeyPair mnemonicPhrase with
  | Except.error e => (Except.error e, st)
  | Except.ok kp =>
    match repoUnsubscribe (generateAccount kp) with
    | Except.error e => (Except.error e, st)
    | Except.ok account => (Except.ok account, st)

/- ### spec-modelled password derivation -/

/-- Modelled from the spec: the key-pair helper's `generatePasswordForFiled`
is not part of the excerpted source; §4.2 states that "field-name
normalization (lowercasing) happens on ... every password derivation" and §3
that the per-field password is derived deterministically from the identity's
key material and the lowercased field name.  `kdf` stands for the underlying
deterministic derivation from key material and normalized name. -/
def generatePasswordForFiled (kdf : String → String) (fieldName : String) : String :=
  kdf fieldName.toLower

/-- Lift a total derivation function to the fallible interface. -/
def liftF (f : String → String) : String → Except String String :=
  fun k => Except.ok (f k)

/-- Lift a total two-argument cipher function to the fallible interface. -/
def liftF2 (f : String → String → String) : String → String → Except String String :=
  fun v p => Except.ok (f v p)

/-- Identity "cipher" used for concrete instances: ciphertext equals
plaintext, so it trivially satisfies `decrypt (encrypt v p) p = ok v`. -/
def idCipherEnc : String → String → String := fun v _ => v

/-- Decryption side of the identity cipher: always succeeds. -/
def idCipherDec : String → String → Except String String := fun c _ => Except.ok c

/-- A constant password-derivation function for concrete instances. -/
def constDeriv : String → String := fun _ => "pass"

/- ### prepareData computation lemmas -/

theorem toLower_lit_name : ("name" : String).toLower = "name" := by
  simp only [String.toLower, String.map_eq]
  decide

theorem toLower_lit_Name_upper : ("Name" : String).toLower = "name" := by
  simp only [String.toLower, String.map_eq]
  decide

/-- Encryption pass of `prepareData`: with a total derivation function and a
total cipher, the loop maps each `(k, v)` to `(k.toLower, enc v (deriv k))`
and appends it to the accumulator, provided the lowered keys are fresh and
pairwise distinct. -/
theorem prepareDataAux_encrypt_eq (deriv : String → String) (enc : String → String → String)
    (dec : String → String → Except String String) :
    ∀ (F acc : Vault),
      (∀ k ∈ F.map Prod.fst, assocGet acc k.toLower = none) →
      (F.map (fun kv => kv.1.toLower)).Nodup →
      prepareDataAux (liftF deriv) (liftF2 enc) dec true F acc =
        Except.ok (acc ++ F.map fun kv => (kv.1.toLower, enc kv.2 (deriv kv.1))) := by
  intro F
  induction F with
  | nil =>
    intro acc _ _
    simp [prepareDataAux]
  | cons kv rest ih =>
    intro acc hacc hnd
    obtain ⟨k, v⟩ := kv
    simp only [List.map_cons, List.nodup_cons] at hnd
    have hacck : assocGet acc k.toLower = none := hacc k (by simp)
    simp only [prepareDataAux, liftF, liftF2, if_true]
    rw [assocSet_eq_append acc k.toLower (enc v (deriv k)) hacck]
    rw [ih (acc ++ [(k.toLower, enc v (deriv k))]) ?_ hnd.2]
    · simp
    · intro k' hk'
      rw [assocGet_append_of_none _ _ _ (hacc k' (by simp [hk']))]
      have hne : k.toLower ≠ k'.toLower := by
        intro heq
        exact hnd.1 (heq ▸ List.mem_map.mpr (by
          obtain ⟨kv', hkv', hfst⟩ := List.mem_map.mp hk'
          exact ⟨kv', hkv', by rw [hfst]⟩))
      simp [assocGet, hne]

/-- Decryption pass of `prepareData` over the image of the encryption pass:
when every key is already lowercase and the cipher satisfies
`dec (enc v p) p = ok v`, the loop recovers the original vault. -/
theorem prepareDataAux_decrypt_roundtrip (deriv : String → String)
    (enc : String → String → String) (dec : String → String → Except String String)
    (hrt : ∀ v p, dec (enc v p) p = Except.ok v) :
    ∀ (F acc : Vault),
      (F.map Prod.fst).Nodup →
      (∀ k ∈ F.map Prod.fst, k.toLower = k) →
      (∀ k ∈ F.map Prod.fst, assocGet acc k = none) →
      prepareDataAux (liftF deriv) (liftF2 enc) dec false
        (F.map fun kv => (kv.1, enc kv.2 (deriv kv.1))) acc =
        Except.ok (acc ++ F) := by
  intro F
  induction F with
  | nil =>
    intro acc _ _ _
    simp [prepareDataAux]
  | cons kv rest ih =>
    intro acc hnd hlow hacc
    obtain ⟨k, v⟩ := kv
    simp only [List.map_cons, List.nodup_cons] at hnd
    have hlk : k.toLower = k := hlow k (by simp)
    simp only [List.map_cons, prepareDataAux, liftF, liftF2, if_false, Bool.false_eq_true]
    rw [hrt v (deriv k), hlk]
    show prepareDataAux (liftF deriv) (liftF2 enc) dec false
        (List.map (fun kv => (kv.1, enc kv.2 (deriv kv.1))) rest) (assocSet acc k v) =
      Except.ok (acc ++ (k, v) :: rest)
    rw [assocSet_eq_append acc k v (hacc k (by simp))]
    rw [ih (acc ++ [(k, v)]) hnd.2 (fun k' hk' => hlow k' (by simp [hk'])) ?_]
    · simp
    · intro k' hk'
      rw [assocGet_append_of_none _ _ _ (hacc k' (by simp [hk']))]
      have hne : k ≠ k' := by
        intro heq
        exact hnd.1 (heq ▸ hk')
      simp [assocGet, hne]

/-- C1 counterexample: under the claim's own assumptions — a symmetric cipher
with `decrypt(encrypt(v, p), p) = v` (here the identity cipher) and a store
that echoes back what was written — writing the vault `{"Name": "x"}` with
`updateData` and reading with `getData` returns `{"name": "x"}`, which is not
the written vault `{"Name": "x"}`: field names come back lowercased. -/
theorem pm_roundTrip_counterexample :
    (∀ v p, idCipherDec (idCipherEnc v p) p = Except.ok v) ∧
    updateData (liftF constDeriv) (liftF2 idCipherEnc) idCipherDec
        (fun _ v => POutcome.resolved v) "pk" [("Name", "x")] =
      POutcome.resolved [("name", "x")] ∧
    getData (liftF constDeriv) (liftF2 idCipherEnc) idCipherDec
        (fun _ => POutcome.resolved [("name", "x")]) "pk" =
      POutcome.resolved [("name", "x")] ∧
    POutcome.resolved ([("name", "x")] : Vault) ≠
      POutcome.resolved ([("Name", "x")] : Vault) := by
  refine ⟨fun v p => rfl, ?_, ?_, by decide⟩
  · simp [updateData, prepareData, prepareDataAux, liftF, liftF2, idCipherEnc, idCipherDec,
      constDeriv, toLower_lit_Name_upper, assocSet]
  · simp [getData, getRawData, prepareData, prepareDataAux, liftF, liftF2, idCipherEnc,
      idCipherDec, constDeriv, toLower_lit_name, assocSet]

/-- Lowercasing the field names of a vault is the identity exactly when every
field name is already lowercase. -/
theorem map_lowerFst_eq_self_iff (F : Vault) :
    F.map (fun kv => (kv.1.toLower, kv.2)) = F ↔
      ∀ k ∈ F.map Prod.fst, k.toLower = k := by
  induction F with
  | nil => simp
  | cons kv rest ih =>
    obtain ⟨k, v⟩ := kv
    simp only [List.map_cons, List.cons.injEq, Prod.mk.injEq, List.mem_cons]
    constructor
    · rintro ⟨⟨hk, -⟩, hrest⟩ k' hk'
      rcases hk' with rfl | hmem
      · exact hk
      · exact ih.mp hrest k' hmem
    · intro h
      exact ⟨⟨h k (Or.inl rfl), trivial⟩, ih.mpr fun k' hk' => h k' (Or.inr hk')⟩

/-- C1 (amended): for every identity and every cleartext vault `F` whose
lowercased field names are pairwise distinct, if the symmetric cipher
satisfies `decrypt(encrypt(v, p), p) = v`, the store echoes back what was
written, and the per-field password derivation is unchanged by lowercasing
the field name (true of the spec's derivation, which normalizes the name to
lowercase before deriving), then `updateData F` stores the per-field
encryption of `F` under lowercased names, and a subsequent `getData` against
the stored vault returns `F` with every field name lowercased — which equals
`F` itself exactly when every field name of `F` is already lowercase. -/
theorem pm_roundTrip (deriv : String → String) (enc : String → String → String)
    (dec : String → String → Except String String)
    (hrt : ∀ v p, dec (enc v p) p = Except.ok v)
    (hderiv : ∀ k, deriv k = deriv k.toLower)
    (pk : String) (F : Vault)
    (hnd : (F.map (fun kv => kv.1.toLower)).Nodup) :
    updateData (liftF deriv) (liftF2 enc) dec (fun _ v => POutcome.resolved v) pk F =
      POutcome.resolved (F.map fun kv => (kv.1.toLower, enc kv.2 (deriv kv.1))) ∧
    getData (liftF deriv) (liftF2 enc) dec
      (fun _ => POutcome.resolved (F.map fun kv => (kv.1.toLower, enc kv.2 (deriv kv.1))))
      pk = POutcome.resolved (F.map fun kv => (kv.1.toLower, kv.2)) ∧
    (F.map (fun kv => (kv.1.toLower, kv.2)) = F ↔
      ∀ k ∈ F.map Prod.fst, k.toLower = k) := by
  have henc : prepareData (liftF deriv) (liftF2 enc) dec F true =
      Except.ok (F.map fun kv => (kv.1.toLower, enc kv.2 (deriv kv.1))) := by
    rw [prepareData, prepareDataAux_encrypt_eq deriv enc dec F [] (fun k _ => rfl) hnd]
    simp
  have hE : (F.map fun kv => (kv.1.toLower, kv.2)).map
        (fun kv => (kv.1, enc kv.2 (deriv kv.1))) =
      F.map fun kv => (kv.1.toLower, enc kv.2 (deriv kv.1)) := by
    rw [List.map_map]
    apply List.map_congr_left
    intro kv _
    simp only [Function.comp_apply]
    rw [← hderiv kv.1]
  have hdec : prepareData (liftF deriv) (liftF2 enc) dec
      (F.map fun kv => (kv.1.toLower, enc kv.2 (deriv kv.1))) false =
      Except.ok (F.map fun kv => (kv.1.toLower, kv.2)) := by
    rw [← hE, prepareData]
    rw [prepareDataAux_decrypt_roundtrip deriv enc dec hrt
        (F.map fun kv => (kv.1.toLower, kv.2)) [] ?_ ?_ (fun k _ => rfl)]
    · simp
    · simpa [List.map_map, Function.comp] using hnd
    · intro k hk
      rw [List.map_map] at hk
      obtain ⟨kv, hkv, rfl⟩ := List.mem_map.mp hk
      exact string_toLower_toLower kv.1
  refine ⟨?_, ?_, map_lowerFst_eq_self_iff F⟩
  · rw [updateData, henc]
  · simp only [getData, getRawData]
    rw [hdec]

/-- C1 witness: the amended round trip at the mixed-case singleton vault
`{"Name": "x"}` with the identity cipher and a constant (hence
lowercase-invariant) derivation: the vault comes back as `{"name": "x"}`,
i.e. with the field name lowercased, and the final equivalence certifies
that the result equals the input exactly when its names are lowercase. -/
theorem pm_roundTrip_witness :
    updateData (liftF constDeriv) (liftF2 idCipherEnc) idCipherDec
        (fun _ v => POutcome.resolved v) "pk" [("Name", "x")] =
      POutcome.resolved (([("Name", "x")] : Vault).map fun kv =>
        (kv.1.toLower, idCipherEnc kv.2 (constDeriv kv.1))) ∧
    getData (liftF constDeriv) (liftF2 idCipherEnc) idCipherDec
      (fun _ => POutcome.resolved (([("Name", "x")] : Vault).map fun kv =>
        (kv.1.toLower, idCipherEnc kv.2 (constDeriv kv.1)))) "pk" =
      POutcome.resolved (([("Name", "x")] : Vault).map fun kv => (kv.1.toLower, kv.2)) ∧
    (([("Name", "x")] : Vault).map (fun kv => (kv.1.toLower, kv.2)) = [("Name", "x")] ↔
      ∀ k ∈ ([("Name", "x")] : Vault).map Prod.fst, k.toLower = k) :=
  pm_roundTrip constDeriv idCipherEnc idCipherDec (fun _ _ => rfl) (fun _ => rfl)
    "pk" [("Name", "x")] (by simp)

/-- C2: with the spec-modelled password derivation (which normalizes the field
name to lowercase before applying the underlying deterministic `kdf`) and any
symmetric cipher satisfying `decrypt(encrypt(v, p), p) = v`, writing the vault
`{n: x}` with `updateData` and then reading the field `lowercase(n)` out of
`getData`'s result yields `x`, regardless of the caller's casing of `n`. -/
theorem pm_caseInsensitive_write_read (kdf : String → String)
    (enc : String → String → String) (dec : String → String → Except String String)
    (hrt : ∀ v p, dec (enc v p) p = Except.ok v)
    (pk n x : String) :
    ∃ E R,
      updateData (liftF (generatePasswordForFiled kdf)) (liftF2 enc) dec
        (fun _ v => POutcome.resolved v) pk [(n, x)] = POutcome.resolved E ∧
      getData (liftF (generatePasswordForFiled kdf)) (liftF2 enc) dec
        (fun _ => POutcome.resolved E) pk = POutcome.resolved R ∧
      assocGet R n.toLower = some x := by
  refine ⟨[(n.toLower, enc x (kdf n.toLower))], [(n.toLower, x)], ?_, ?_, ?_⟩
  · simp [updateData, prepareData, prepareDataAux, liftF, liftF2,
      generatePasswordForFiled, assocSet]
  · simp [getData, getRawData, prepareData, prepareDataAux, liftF, liftF2,
      generatePasswordForFiled, string_toLower_toLower, hrt, assocSet]
  · simp [assocGet]

/-- C2 witness: writing `{"Name": "x"}` and reading `"name"` yields `"x"`
(identity cipher, identity kdf beneath the normalization). -/
theorem pm_caseInsensitive_write_read_witness :
    ∃ E R,
      updateData (liftF (generatePasswordForFiled (fun s => s))) (liftF2 idCipherEnc)
        idCipherDec (fun _ v => POutcome.resolved v) "pk" [("Name", "x")] =
        POutcome.resolved E ∧
      getData (liftF (generatePasswordForFiled (fun s => s))) (liftF2 idCipherEnc)
        idCipherDec (fun _ => POutcome.resolved E) "pk" = POutcome.resolved R ∧
      assocGet R ("Name".toLower) = some "x" :=
  pm_caseInsensitive_write_read (fun s => s) idCipherEnc idCipherDec
    (fun _ _ => rfl) "pk" "Name" "x"

/- ### getAuthorizedData characterization -/

/-- Value-level characterization of the `forEach` loop of
`getAuthorizedData`: a key ends up in the result exactly when it is in the
disclosed password map, it is in the raw vault, and the disclosed password
decrypts its ciphertext; a per-field decryption failure leaves the
accumulator untouched. -/
theorem authFold_assocGet (dec : String → String → Except String String) (raw : Vault) :
    ∀ (pmap : Vault) (acc : Vault) (j : String),
      (pmap.map Prod.fst).Nodup →
      assocGet (pmap.foldl (fun result kv => authStep dec raw result kv.1 kv.2) acc) j =
        match assocGet pmap j, assocGet raw j with
        | some p, some c =>
          match dec c p with
          | Except.ok plain => some plain
          | Except.error _ => assocGet acc j
        | some _, none => assocGet acc j
        | none, _ => assocGet acc j := by
  intro pmap
  induction pmap with
  | nil =>
    intro acc j _
    simp [assocGet]
  | cons kv rest ih =>
    intro acc j hnd
    obtain ⟨k, p⟩ := kv
    simp only [List.map_cons, List.nodup_cons] at hnd
    simp only [List.foldl_cons]
    rw [ih (authStep dec raw acc k p) j hnd.2]
    by_cases hjk : k = j
    · subst hjk
      rw [assocGet_eq_none_of_not_mem rest k hnd.1]
      cases hraw : assocGet raw k with
      | none => simp [authStep, assocHas, hraw, assocGet]
      | some c =>
        cases hdec : dec c p with
        | ok plain =>
          simp [authStep, assocHas, hraw, hdec, assocGet, assocGet_assocSet_self]
        | error e => simp [authStep, assocHas, hraw, hdec, assocGet]
    · have hstep : assocGet (authStep dec raw acc k p) j = assocGet acc j := by
        unfold authStep
        cases hraw : assocGet raw k with
        | none => simp [assocHas, hraw]
        | some c =>
          cases hdec : dec c p with
          | ok plain => simp [assocHas, hraw, hdec, assocGet_assocSet_ne acc k j plain hjk]
          | error e => simp [assocHas, hraw, hdec]
      rw [hstep]
      simp [assocGet, hjk]

/-- C3: when the disclosure envelope decrypts and parses to a password map
`pmap` and the raw vault fetch resolves with `raw`, `getAuthorizedData`
always resolves (a per-field symmetric decryption failure never fails the
whole call): the result `R` maps each key to the decryption of its raw
ciphertext with its disclosed password exactly when that decryption succeeds,
omits a field whose decryption fails, and still returns every other field
present in both maps whose decryption succeeds. -/
theorem pm_getAuthorizedData_bestEffort
    (decryptMessage : String → String → Except String String)
    (jsonToMap : String → Except String Vault)
    (repoGetData : String → POutcome Vault)
    (dec : String → String → Except String String)
    (recipientPk encryptedData s : String) (pmap raw : Vault)
    (hmsg : decryptMessage recipientPk encryptedData = Except.ok s)
    (hjson : jsonToMap s = Except.ok pmap)
    (hraw : repoGetData recipientPk = POutcome.resolved raw)
    (hnd : (pmap.map Prod.fst).Nodup) :
    ∃ R, getAuthorizedData decryptMessage jsonToMap repoGetData dec
        recipientPk encryptedData = POutcome.resolved R ∧
      ∀ j, assocGet R j =
        match assocGet pmap j, assocGet raw j with
        | some p, some c => (dec c p).toOption
        | some _, none => none
        | none, _ => none := by
  refine ⟨pmap.foldl (fun result kv => authStep dec raw result kv.1 kv.2) [], ?_, ?_⟩
  · simp only [getAuthorizedData, hmsg, hjson, getRawData, hraw]
  · intro j
    rw [authFold_assocGet dec raw pmap [] j hnd]
    cases hp : assocGet pmap j with
    | none => rfl
    | some p =>
      cases hc : assocGet raw j with
      | none => rfl
      | some c =>
        cases hdec : dec c p with
        | ok plain => simp [Except.toOption, hdec]
        | error e => simp [Except.toOption, hdec, assocGet]

/-- C3 witness: two disclosed fields, one of which fails to decrypt; the call
resolves, the failing field `"age"` is omitted and `"name"` is returned. -/
theorem pm_getAuthorizedData_bestEffort_witness :
    ∃ R, getAuthorizedData (fun _ _ => Except.ok "json") (fun _ => Except.ok [("name", "p1"), ("age", "p2")])
        (fun _ => POutcome.resolved [("name", "c1"), ("age", "c2")])
        (fun c _ => if c = "c1" then Except.ok "my name" else Except.error "bad pass")
        "ownerPk" "envelope" = POutcome.resolved R ∧
      ∀ j, assocGet R j =
        match assocGet [("name", "p1"), ("age", "p2")] j,
          assocGet [("name", "c1"), ("age", "c2")] j with
        | some p, some c =>
          ((fun c _ => if c = "c1" then Except.ok "my name" else Except.error "bad pass")
            c p).toOption
        | some _, none => none
        | none, _ => none :=
  pm_getAuthorizedData_bestEffort _ _ _ _ "ownerPk" "envelope" "json"
    [("name", "p1"), ("age", "p2")] [("name", "c1"), ("age", "c2")]
    rfl rfl rfl (by decide)

/-- C5: under the same successful-envelope hypotheses, the key set of the
vault returned by `getAuthorizedData` is contained in the keys of the
disclosed password map intersected with the keys of the stored raw vault,
and an empty password map yields the empty vault regardless of the owner's
stored data. -/
theorem pm_getAuthorizedData_subset
    (decryptMessage : String → String → Except String String)
    (jsonToMap : String → Except String Vault)
    (repoGetData : String → POutcome Vault)
    (dec : String → String → Except String String)
    (recipientPk encryptedData s : String) (pmap raw : Vault)
    (hmsg : decryptMessage recipientPk encryptedData = Except.ok s)
    (hjson : jsonToMap s = Except.ok pmap)
    (hraw : repoGetData recipientPk = POutcome.resolved raw)
    (hnd : (pmap.map Prod.fst).Nodup) :
    ∃ R, getAuthorizedData decryptMessage jsonToMap repoGetData dec
        recipientPk encryptedData = POutcome.resolved R ∧
      (∀ j, (assocGet R j).isSome → (assocGet pmap j).isSome ∧ (assocGet raw j).isSome) ∧
      (pmap = [] → R = []) := by
  refine ⟨pmap.foldl (fun result kv => authStep dec raw result kv.1 kv.2) [], ?_, ?_, ?_⟩
  · simp only [getAuthorizedData, hmsg, hjson, getRawData, hraw]
  · intro j hj
    rw [authFold_assocGet dec raw pmap [] j hnd] at hj
    cases hp : assocGet pmap j with
    | none => rw [hp] at hj; simp [assocGet] at hj
    | some p =>
      cases hc : assocGet raw j with
      | none => rw [hp, hc] at hj; simp [assocGet] at hj
      | some c => simp [hp, hc]
  · intro hp
    subst hp
    rfl

/-- C5 witness: a password map disclosing only `"name"` against a raw vault
holding `"name"` and `"city"`; also exercises the empty-map clause. -/
theorem pm_getAuthorizedData_subset_witness :
    ∃ R, getAuthorizedData (fun _ _ => Except.ok "json") (fun _ => Except.ok [("name", "p1")])
        (fun _ => POutcome.resolved [("name", "c1"), ("city", "c3")]) idCipherDec
        "ownerPk" "envelope" = POutcome.resolved R ∧
      (∀ j, (assocGet R j).isSome →
        (assocGet [("name", "p1")] j).isSome ∧
        (assocGet [("name", "c1"), ("city", "c3")] j).isSome) ∧
      ([("name", "p1")] = ([] : Vault) → R = []) :=
  pm_getAuthorizedData_subset _ _ _ _ "ownerPk" "envelope" "json"
    [("name", "p1")] [("name", "c1"), ("city", "c3")] rfl rfl rfl (by decide)

/- ### prepareData failure lemmas -/

/-- If every field before some `(k0, v0)` passes derivation and decryption,
and decryption of `v0` fails with `e0`, the decryption pass of `prepareData`
fails with `e0` whatever the accumulator. -/
theorem prepareDataAux_decrypt_error
    (deriv : String → Except String String)
    (enc dec : String → String → Except String String) :
    ∀ (pre : Vault) (post acc : Vault) (k0 v0 p0 e0 : String),
      (∀ kv ∈ pre, ∃ p c, deriv kv.1 = Except.ok p ∧ dec kv.2 p = Except.ok c) →
      deriv k0 = Except.ok p0 → dec v0 p0 = Except.error e0 →
      prepareDataAux deriv enc dec false (pre ++ (k0, v0) :: post) acc =
        Except.error e0 := by
  intro pre
  induction pre with
  | nil =>
    intro post acc k0 v0 p0 e0 _ hd he
    simp [prepareDataAux, hd, he]
  | cons kv rest ih =>
    intro post acc k0 v0 p0 e0 hpre hd he
    obtain ⟨k, v⟩ := kv
    obtain ⟨p, c, hp, hc⟩ := hpre (k, v) (by simp)
    simp only [List.cons_append, prepareDataAux, hp, hc]
    exact ih post _ k0 v0 p0 e0 (fun kv' hkv' => hpre kv' (by simp [hkv'])) hd he

/-- Same statement for the encryption pass, where either the password
derivation or the encryption of the offending field fails. -/
theorem prepareDataAux_encrypt_error
    (deriv : String → Except String String)
    (enc dec : String → String → Except String String) :
    ∀ (pre : Vault) (post acc : Vault) (k0 v0 e0 : String),
      (∀ kv ∈ pre, ∃ p c, deriv kv.1 = Except.ok p ∧ enc kv.2 p = Except.ok c) →
      (deriv k0 = Except.error e0 ∨
        ∃ p0, deriv k0 = Except.ok p0 ∧ enc v0 p0 = Except.error e0) →
      prepareDataAux deriv enc dec true (pre ++ (k0, v0) :: post) acc =
        Except.error e0 := by
  intro pre
  induction pre with
  | nil =>
    intro post acc k0 v0 e0 _ hfail
    rcases hfail with hd | ⟨p0, hd, he⟩
    · simp [prepareDataAux, hd]
    · simp [prepareDataAux, hd, he]
  | cons kv rest ih =>
    intro post acc k0 v0 e0 hpre hfail
    obtain ⟨k, v⟩ := kv
    obtain ⟨p, c, hp, hc⟩ := hpre (k, v) (by simp)
    simp only [List.cons_append, prepareDataAux, hp, hc]
    exact ih post _ k0 v0 e0 (fun kv' hkv' => hpre kv' (by simp [hkv'])) hfail

/-- C4: in `getData`, if the stored raw vault contains a field `(k0, v0)`
whose symmetric decryption fails with error `e0` (all fields before it in
iteration order decrypting fine), the whole call fails with `e0`: no partial
cleartext vault is returned. -/
theorem pm_getData_decryptError_propagates
    (deriv : String → Except String String)
    (enc dec : String → String → Except String String)
    (repoGetData : String → POutcome Vault) (pk : String)
    (pre post : Vault) (k0 v0 p0 e0 : String)
    (hraw : repoGetData pk = POutcome.resolved (pre ++ (k0, v0) :: post))
    (hpre : ∀ kv ∈ pre, ∃ p c, deriv kv.1 = Except.ok p ∧ dec kv.2 p = Except.ok c)
    (hd : deriv k0 = Except.ok p0)
    (he : dec v0 p0 = Except.error e0) :
    getData deriv enc dec repoGetData pk = POutcome.rejected e0 := by
  simp only [getData, getRawData, hraw, prepareData]
  rw [prepareDataAux_decrypt_error deriv enc dec pre post [] k0 v0 p0 e0 hpre hd he]

/-- C4 witness: a single stored field whose ciphertext fails to decrypt makes
`getData` reject with that error. -/
theorem pm_getData_decryptError_propagates_witness :
    getData (fun _ => Except.ok "pass") (liftF2 idCipherEnc)
      (fun _ _ => Except.error "corrupted") (fun _ => POutcome.resolved [("name", "zzz")])
      "pk" = POutcome.rejected "corrupted" :=
  pm_getData_decryptError_propagates (fun _ => Except.ok "pass") (liftF2 idCipherEnc)
    (fun _ _ => Except.error "corrupted") (fun _ => POutcome.resolved [("name", "zzz")])
    "pk" [] [] "name" "zzz" "pass" "corrupted" rfl (by simp) rfl rfl

/-- C6: `updateData` is atomic — if password derivation or encryption fails
with `e0` on some field of the input vault (all fields before it in iteration
order encrypting fine), the call rejects with `e0` for **every** behavior of
the Vault Store's `updateData`, i.e. the result does not depend on the store,
which is therefore never invoked, and no partial ciphertext mapping is
persisted. -/
theorem pm_updateData_atomic
    (deriv : String → Except String String)
    (enc dec : String → String → Except String String)
    (pk : String) (pre post : Vault) (k0 v0 e0 : String)
    (hpre : ∀ kv ∈ pre, ∃ p c, deriv kv.1 = Except.ok p ∧ enc kv.2 p = Except.ok c)
    (hfail : deriv k0 = Except.error e0 ∨
      ∃ p0, deriv k0 = Except.ok p0 ∧ enc v0 p0 = Except.error e0) :
    ∀ repoUpdateData, updateData deriv enc dec repoUpdateData pk
      (pre ++ (k0, v0) :: post) = POutcome.rejected e0 := by
  intro repoUpdateData
  simp only [updateData, prepareData]
  rw [prepareDataAux_encrypt_error deriv enc dec pre post [] k0 v0 e0 hpre hfail]

/-- C6 witness: encryption of the second field fails, so `updateData` rejects
regardless of the store (instantiated here with an echoing store). -/
theorem pm_updateData_atomic_witness :
    updateData (fun _ => Except.ok "pass")
      (fun v _ => if v = "bad" then Except.error "enc fail" else Except.ok v)
      idCipherDec (fun _ v => POutcome.resolved v) "pk"
      [("name", "ok"), ("age", "bad")] = POutcome.rejected "enc fail" :=
  pm_updateData_atomic (fun _ => Except.ok "pass")
    (fun v _ => if v = "bad" then Except.error "enc fail" else Except.ok v)
    idCipherDec "pk" [("name", "ok")] [] "age" "bad" "enc fail"
    (by
      intro kv hkv
      simp only [List.mem_singleton] at hkv
      subst hkv
      exact ⟨"pass", "ok", rfl, rfl⟩)
    (Or.inr ⟨"pass", rfl, rfl⟩)
    (fun _ v => POutcome.resolved v)

/- ### AccountManager theorems -/

/-- What a successful `onGetAccount` guarantees: the returned account carries
the given message and its signature, keeps the incoming public key, is
published as the behavior subject's current value, and exactly one
notification is emitted. -/
theorem onGetAccount_spec (signMessage : String → Except String String)
    (st : SubjectState) (account : Account) (message : String)
    (a : Account) (st' : SubjectState)
    (h : onGetAccount signMessage st account message = (Except.ok a, st')) :
    a.message = message ∧ signMessage message = Except.ok a.sig ∧
    a.publicKey = account.publicKey ∧
    st'.current = a ∧ st'.emitted = st.emitted ++ [a] := by
  cases hsig : signMessage message with
  | error e =>
    simp only [onGetAccount, hsig] at h
    simp at h
  | ok s =>
    simp only [onGetAccount, hsig, Prod.mk.injEq, Except.ok.injEq] at h
    obtain ⟨ha, hst⟩ := h
    subst ha
    subst hst
    exact ⟨rfl, rfl, rfl, rfl, rfl⟩

/-- C7: every successful `registration` and every successful `checkAccount`
call attaches the given message and its signature to the account, publishes
that exact account as the new current identity on the behavior subject
(replacing the previous one and emitting exactly one change notification),
and returns the same account to the caller. -/
theorem am_publish_current_identity
    (createKeyPair : String → Except String KeyPair)
    (repoRegistration repoCheckAccount : Account → Except String Account)
    (signMessage : String → Except String String)
    (st st1 st2 : SubjectState) (mnemonicPhrase message : String) (a1 a2 : Account)
    (hreg : registration createKeyPair repoRegistration signMessage st
      mnemonicPhrase message = (Except.ok a1, st1))
    (hchk : checkAccount createKeyPair repoCheckAccount signMessage st
      mnemonicPhrase message = (Except.ok a2, st2)) :
    (a1.message = message ∧ signMessage message = Except.ok a1.sig ∧
      st1.current = a1 ∧ st1.emitted = st.emitted ++ [a1]) ∧
    (a2.message = message ∧ signMessage message = Except.ok a2.sig ∧
      st2.current = a2 ∧ st2.emitted = st.emitted ++ [a2]) := by
  constructor
  · cases hkp : createKeyPair mnemonicPhrase with
    | error e =>
      simp only [registration, hkp] at hreg
      simp at hreg
    | ok kp =>
      cases hacc : repoRegistration (generateAccount kp) with
      | error e =>
        simp only [registration, hkp, hacc] at hreg
        simp at hreg
      | ok account =>
        simp only [registration, hkp, hacc] at hreg
        obtain ⟨hm, hs, _, hc, he⟩ := onGetAccount_spec signMessage st account message a1 st1 hreg
        exact ⟨hm, hs, hc, he⟩
  · cases hkp : createKeyPair mnemonicPhrase with
    | error e =>
      simp only [checkAccount, hkp] at hchk
      simp at hchk
    | ok kp =>
      cases hacc : repoCheckAccount (generateAccount kp) with
      | error e =>
        simp only [checkAccount, hkp, hacc] at hchk
        simp at hchk
      | ok account =>
        simp only [checkAccount, hkp, hacc] at hchk
        obtain ⟨hm, hs, _, hc, he⟩ := onGetAccount_spec signMessage st account message a2 st2 hchk
        exact ⟨hm, hs, hc, he⟩

/-- C7 witness: concrete registration and account check, starting from a
previously published identity, both publishing the freshly signed account. -/
theorem am_publish_current_identity_witness :
    (({ publicKey := "pub", message := "hello", sig := "s" } : Account).message = "hello" ∧
      (fun _ => Except.ok "s" : String → Except String String) "hello" =
        Except.ok ({ publicKey := "pub", message := "hello", sig := "s" } : Account).sig ∧
      (subjectNext ⟨{ publicKey := "old", message := "", sig := "" }, []⟩
          { publicKey := "pub", message := "hello", sig := "s" }).current =
        { publicKey := "pub", message := "hello", sig := "s" } ∧
      (subjectNext ⟨{ publicKey := "old", message := "", sig := "" }, []⟩
          { publicKey := "pub", message := "hello", sig := "s" }).emitted =
        (⟨{ publicKey := "old", message := "", sig := "" }, []⟩ : SubjectState).emitted ++
          [{ publicKey := "pub", message := "hello", sig := "s" }]) ∧
    (({ publicKey := "pub", message := "hello", sig := "s" } : Account).message = "hello" ∧
      (fun _ => Except.ok "s" : String → Except String String) "hello" =
        Except.ok ({ publicKey := "pub", message := "hello", sig := "s" } : Account).sig ∧
      (subjectNext ⟨{ publicKey := "old", message := "", sig := "" }, []⟩
          { publicKey := "pub", message := "hello", sig := "s" }).current =
        { publicKey := "pub", message := "hello", sig := "s" } ∧
      (subjectNext ⟨{ publicKey := "old", message := "", sig := "" }, []⟩
          { publicKey := "pub", message := "hello", sig := "s" }).emitted =
        (⟨{ publicKey := "old", message := "", sig := "" }, []⟩ : SubjectState).emitted ++
          [{ publicKey := "pub", message := "hello", sig := "s" }]) :=
  am_publish_current_identity
    (fun _ => Except.ok { publicKey := "pub", privateKey := "priv" })
    (fun a => Except.ok a) (fun a => Except.ok a) (fun _ => Except.ok "s")
    ⟨{ publicKey := "old", message := "", sig := "" }, []⟩
    (subjectNext ⟨{ publicKey := "old", message := "", sig := "" }, []⟩
      { publicKey := "pub", message := "hello", sig := "s" })
    (subjectNext ⟨{ publicKey := "old", message := "", sig := "" }, []⟩
      { publicKey := "pub", message := "hello", sig := "s" })
    "mnemonic" "hello"
    { publicKey := "pub", message := "hello", sig := "s" }
    { publicKey := "pub", message := "hello", sig := "s" }
    rfl rfl

/-- C9: `unsubscribe` never changes the published current-identity state and
emits no identity-change notification, whether the underlying calls succeed
or fail: the behavior subject state coming out of the call is exactly the
state that went in. -/
theorem am_unsubscribe_frame
    (createKeyPair : String → Except String KeyPair)
    (repoUnsubscribe : Account → Except String Account)
    (st : SubjectState) (mnemonicPhrase : String) :
    (unsubscribe createKeyPair repoUnsubscribe st mnemonicPhrase).2 = st := by
  unfold unsubscribe
  cases createKeyPair mnemonicPhrase with
  | error e => rfl
  | ok kp =>
    cases h : repoUnsubscribe (generateAccount kp) with
    | error e => simp [h]
    | ok account => simp [h]

/-- C8 evaluation: when the envelope decrypts and parses but the Vault
Store's `getData` rejects, `getAuthorizedData` returns a promise that never
settles — the store error is swallowed by the missing rejection handler
instead of propagating to the caller as the spec requires. -/
theorem pm_storeError_neverSettles :
    getAuthorizedData (fun _ _ => Except.ok "payload") (fun _ => Except.ok [("name", "p1")])
      (fun _ => POutcome.rejected "repository unreachable") idCipherDec
      "ownerPk" "envelope" = POutcome.pending := rfl

/-- C10: if the disclosure envelope itself cannot be processed — the
asymmetric `decryptMessage` throws, or the decrypted plaintext fails JSON
parsing — `getAuthorizedData` rejects with that very error, and the result is
the same for every behavior of the Vault Store's `getData`: the owner's raw
vault is never fetched and no partial result is returned. -/
theorem pm_envelopeError_rejects
    (decryptMessage : String → String → Except String String)
    (jsonToMap : String → Except String Vault)
    (dec : String → String → Except String String)
    (recipientPk encryptedData : String) :
    (∀ e, decryptMessage recipientPk encryptedData = Except.error e →
      ∀ repoGetData, getAuthorizedData decryptMessage jsonToMap repoGetData dec
        recipientPk encryptedData = POutcome.rejected e) ∧
    (∀ s e, decryptMessage recipientPk encryptedData = Except.ok s →
      jsonToMap s = Except.error e →
      ∀ repoGetData, getAuthorizedData decryptMessage jsonToMap repoGetData dec
        recipientPk encryptedData = POutcome.rejected e) := by
  constructor
  · intro e hmsg repoGetData
    simp [getAuthorizedData, hmsg]
  · intro s e hmsg hjson repoGetData
    simp [getAuthorizedData, hmsg, hjson]

/-- C10 witness: a failing asymmetric decryption and a failing JSON parse
each reject the call with their own error, against a store that would have
resolved. -/
theorem pm_envelopeError_rejects_witness :
    getAuthorizedData (fun _ _ => Except.error "bad envelope") (fun _ => Except.ok [])
      (fun _ => POutcome.resolved [("name", "c1")]) idCipherDec "ownerPk" "env" =
      POutcome.rejected "bad envelope" ∧
    getAuthorizedData (fun _ _ => Except.ok "not json") (fun _ => Except.error "parse error")
      (fun _ => POutcome.resolved [("name", "c1")]) idCipherDec "ownerPk" "env" =
      POutcome.rejected "parse error" :=
  ⟨(pm_envelopeError_rejects (fun _ _ => Except.error "bad envelope")
      (fun _ => Except.ok []) idCipherDec "ownerPk" "env").1 "bad envelope" rfl
      (fun _ => POutcome.resolved [("name", "c1")]),
   (pm_envelopeError_rejects (fun _ _ => Except.ok "not json")
      (fun _ => Except.error "parse error") idCipherDec "ownerPk" "env").2
      "not json" "parse error" rfl rfl
      (fun _ => POutcome.resolved [("name", "c1")])⟩
